import Mathlib

/-!
Shallow embedding of the venue-search client's filter engine
(`src/utils/search.ts`) together with the store's default filter state
(`src/store/venueStore.ts`) and the data model (`src/types/index.ts`).

JS strings are modelled as lists of UTF-16 code points (`List Nat`);
JS numbers that carry measurements are modelled as rationals, counts as
naturals; `undefined`/`null` fields are modelled with `Option`.
-/

namespace VenueSearch

/-- A JS string, as its sequence of UTF-16 code points. -/
abbrev Str := List Nat

/-- Embeds `toHalfWidth`'s per-character action: the regex
`[Ａ-Ｚａ-ｚ０-９]` covers U+FF21–FF3A, U+FF41–FF5A, U+FF10–FF19, and a
matched character is shifted down by 0xFEE0. -/
def toHalfWidthChar (c : Nat) : Nat :=
  if (0xFF21 ≤ c ∧ c ≤ 0xFF3A) ∨ (0xFF41 ≤ c ∧ c ≤ 0xFF5A) ∨ (0xFF10 ≤ c ∧ c ≤ 0xFF19)
  then c - 0xFEE0 else c

/-- Embeds `katakanaToHiragana`'s per-character action: the regex
`[ァ-ヶ]` shifts a matched character down by 0x60. -/
def katakanaToHiraganaChar (c : Nat) : Nat :=
  if 0x30A1 ≤ c ∧ c ≤ 0x30F6 then c - 0x60 else c

/-- Per-character action of JS `String.prototype.toLowerCase`, modelled on
the ASCII range (the only case-carrying range the folds above produce or
that the verified properties touch): U+0041–005A shifts up by 0x20. -/
def toLowerChar (c : Nat) : Nat :=
  if 0x41 ≤ c ∧ c ≤ 0x5A then c + 0x20 else c

/-- `toHalfWidth` from `search.ts`: full-width Latin letters and digits to
standard width. -/
def toHalfWidth (s : Str) : Str := s.map toHalfWidthChar

/-- `katakanaToHiragana` from `search.ts`. -/
def katakanaToHiragana (s : Str) : Str := s.map katakanaToHiraganaChar

/-- JS `toLowerCase`, per character. -/
def toLowerCase (s : Str) : Str := s.map toLowerChar

/-- `normalize` from `search.ts`:
`katakanaToHiragana(toHalfWidth(str)).toLowerCase()`. -/
def normalize (s : Str) : Str := toLowerCase (katakanaToHiragana (toHalfWidth s))

/-- The composed per-character action of `normalize`. -/
def normalizeChar (c : Nat) : Nat := toLowerChar (katakanaToHiraganaChar (toHalfWidthChar c))

/-- JS `text.includes(t)`: `t` occurs contiguously inside `s`. -/
def includes (s t : Str) : Bool := decide (t <:+: s)

/-- A character matched by the JS regex class `\s` (per ECMA-262:
tab–carriage-return, space, NBSP, and the Unicode space separators
including the ideographic space U+3000 and BOM). -/
def isWhitespaceChar (c : Nat) : Bool :=
  decide ((9 ≤ c ∧ c ≤ 13) ∨ c = 32 ∨ c = 160 ∨ c = 0x1680 ∨
    (0x2000 ≤ c ∧ c ≤ 0x200A) ∨ c = 0x2028 ∨ c = 0x2029 ∨
    c = 0x202F ∨ c = 0x205F ∨ c = 0x3000 ∨ c = 0xFEFF)

/-- Splitting a string at every single whitespace character (adjacent
separators produce empty pieces).  `s.trim().split(/\s+/)` followed by
`filter(Boolean)` yields exactly the nonempty pieces of this split: the
trim and the run-splitting only change where the empty pieces fall, and
those are discarded by `filter(Boolean)` in `tokenize` below. -/
def splitOnWhitespace : Str → List Str
  | [] => [[]]
  | c :: rest =>
    if isWhitespaceChar c then [] :: splitOnWhitespace rest
    else
      match splitOnWhitespace rest with
      | [] => [[c]]
      | p :: ps => (c :: p) :: ps

/-- The term list built in `filterHotels`:
`filter.keyword.trim().split(/\s+/).filter(Boolean).map(normalize)`. -/
def tokenize (s : Str) : List Str :=
  ((splitOnWhitespace s).filter (fun t => !t.isEmpty)).map normalize

/-- `Capacity` from `types/index.ts`. -/
structure Capacity where
  theater : Option ℚ
  school : Option ℚ
  banquet : Option ℚ
  standing : Option ℚ
  max : Option ℚ
deriving DecidableEq

/-- `CapacityType` from `types/index.ts`. -/
inductive CapacityType
  | theater
  | school
  | banquet
  | standing
deriving DecidableEq

/-- The dynamic field access `capacity[type]`. -/
def capacityField (c : Capacity) : CapacityType → Option ℚ
  | .theater => c.theater
  | .school => c.school
  | .banquet => c.banquet
  | .standing => c.standing

/-- `getCapacityValue` from `search.ts`: the selected dimension's value
when it is non-null, else the generic `max` field. -/
def getCapacityValue (c : Capacity) (t : CapacityType) : Option ℚ :=
  match capacityField c t with
  | some v => some v
  | none => c.max

/-- `Division` from `types/index.ts`. -/
structure Division where
  name : Str
  areaSqm : Option ℚ
  ceilingHeightM : Option ℚ
  capacity : Capacity
deriving DecidableEq

/-- `Room` from `types/index.ts`. -/
structure Room where
  id : Str
  name : Str
  floor : Option Str
  areaSqm : Option ℚ
  ceilingHeightM : Option ℚ
  capacity : Capacity
  divisions : List Division
  equipment : Option Str
  features : Option Str
  loadingDock : Option Str
  usageCount : Option Nat
  typicalSeatCount : Option Nat
  typicalUse : Option Str
deriving DecidableEq

/-- `getMaxCapacity` from `search.ts`: `getCapacityValue(...) ?? 0`. -/
def getMaxCapacity (room : Room) (t : CapacityType) : ℚ :=
  (getCapacityValue room.capacity t).getD 0

/-- `Region` from `types/index.ts` (the ten city names). -/
inductive Region
  | tokyo
  | osaka
  | nagoya
  | fukuoka
  | kyoto
  | yokohama
  | kobe
  | sapporo
  | sendai
  | chiba
deriving DecidableEq

/-- `PracticalInfo` from `types/index.ts`. -/
structure PracticalInfo where
  loadingDockSize : Option Str
  loadingRoute : Option Str
  waitingRoom : Option Str
  catering : Option Str
  priceGuide : Option Str
  wifi : Option Str
  avEquipment : Option Str
  nearestStation : Option Str
  contactPhone : Option Str
  parking : Option Str
  venuePageUrl : Option Str
  floorPlanUrl : Option Str
  brochureUrl : Option Str
deriving DecidableEq

/-- `Hotel` from `types/index.ts`. -/
structure Hotel where
  id : Str
  name : Str
  address : Str
  region : Region
  totalRoomCount : Option Str
  rooms : List Room
  practicalInfo : Option PracticalInfo
  lat : Option ℚ
  lng : Option ℚ
  usageCount : Option Nat
deriving DecidableEq

/-- `FilterState` from `types/index.ts`. -/
structure FilterState where
  keyword : Str
  regions : List Region
  areaMin : Option ℚ
  areaMax : Option ℚ
  ceilingMin : Option ℚ
  ceilingMax : Option ℚ
  capacityMin : Option ℚ
  capacityMax : Option ℚ
  capacityType : CapacityType
  hasDivisions : Option Bool
  hasUsageRecords : Option Bool
deriving DecidableEq

/-- `defaultFilter` from `venueStore.ts`. -/
def defaultFilter : FilterState :=
  { keyword := []
    regions := []
    areaMin := none
    areaMax := none
    ceilingMin := none
    ceilingMax := none
    capacityMin := none
    capacityMax := none
    capacityType := .theater
    hasDivisions := none
    hasUsageRecords := none }

/-- JS `array.filter(Boolean)` over `[a, b, ...]` where entries may be
`undefined` or empty strings: keeps exactly the present, nonempty ones. -/
def filterTruthy (l : List (Option Str)) : List Str :=
  (l.filterMap id).filter (fun s => !s.isEmpty)

/-- JS `array.join(' ')`. -/
def joinSpace : List Str → Str
  | [] => []
  | [s] => s
  | s :: t :: rest => s ++ 0x20 :: joinSpace (t :: rest)

/-- The searchable text of a room built in `roomMatchesText`:
`normalize([room.name, room.floor, room.equipment, room.features].filter(Boolean).join(' '))`. -/
def roomSearchText (room : Room) : Str :=
  normalize (joinSpace (filterTruthy [some room.name, room.floor, room.equipment, room.features]))

/-- `roomMatchesText` from `search.ts`: every term occurs in the room's
searchable text. -/
def roomMatchesText (room : Room) (terms : List Str) : Bool :=
  terms.all (fun t => includes (roomSearchText room) t)

/-- The hotel-level searchable text built in `hotelMatchesText` (and
rebuilt verbatim in the narrowing step of `filterHotels`):
`normalize([hotel.name, hotel.address, hotel.practicalInfo?.nearestStation].filter(Boolean).join(' '))`. -/
def hotelSearchText (h : Hotel) : Str :=
  normalize (joinSpace (filterTruthy
    [some h.name, some h.address, h.practicalInfo.bind PracticalInfo.nearestStation]))

/-- The direct hotel-text test `terms.every(t => hotelText.includes(t))`,
used both inside `hotelMatchesText` and in the narrowing step. -/
def hotelDirectMatch (h : Hotel) (terms : List Str) : Bool :=
  terms.all (fun t => includes (hotelSearchText h) t)

/-- `hotelMatchesText` from `search.ts`: the hotel text carries every
term, or some owned room does. -/
def hotelMatchesText (h : Hotel) (terms : List Str) : Bool :=
  if hotelDirectMatch h terms then true
  else h.rooms.any (fun r => roomMatchesText r terms)

/-- `FilteredResult` from `search.ts`. -/
structure FilteredResult where
  hotel : Hotel
  matchedRooms : List Room
deriving DecidableEq

/-- The test `filter.areaMin != null && (room.areaSqm == null || room.areaSqm < filter.areaMin)`:
a set lower bound rejects an absent value or one strictly below it. -/
def belowMin (bound v : Option ℚ) : Bool :=
  match bound with
  | none => false
  | some m =>
    match v with
    | none => true
    | some x => decide (x < m)

/-- The test `filter.areaMax != null && (room.areaSqm == null || room.areaSqm > filter.areaMax)`. -/
def aboveMax (bound v : Option ℚ) : Bool :=
  match bound with
  | none => false
  | some m =>
    match v with
    | none => true
    | some x => decide (m < x)

/-- The capacity block of the room predicate in `filterHotels`: when
either capacity bound is set, resolve the capacity; `0` fails outright,
then each set bound is checked. -/
def capacityFails (f : FilterState) (room : Room) : Bool :=
  if f.capacityMin.isSome || f.capacityMax.isSome then
    getMaxCapacity room f.capacityType == 0 ||
      (match f.capacityMin with
        | some m => decide (getMaxCapacity room f.capacityType < m)
        | none => false) ||
      (match f.capacityMax with
        | some m => decide (m < getMaxCapacity room f.capacityType)
        | none => false)
  else false

/-- The division-flag checks of the room predicate in `filterHotels`. -/
def divisionsFails (f : FilterState) (room : Room) : Bool :=
  (f.hasDivisions == some true && room.divisions.isEmpty) ||
  (f.hasDivisions == some false && !room.divisions.isEmpty)

/-- The room predicate passed to `hotel.rooms.filter` in `filterHotels`
(the early `return false`s folded into one negated disjunction). -/
def roomPassesFilters (f : FilterState) (room : Room) : Bool :=
  !(belowMin f.areaMin room.areaSqm || aboveMax f.areaMax room.areaSqm ||
    belowMin f.ceilingMin room.ceilingHeightM || aboveMax f.ceilingMax room.ceilingHeightM ||
    capacityFails f room || divisionsFails f room)

/-- The guard deciding whether the room-level numeric/flag filter runs at
all in `filterHotels`. -/
def anyRoomFilterActive (f : FilterState) : Bool :=
  f.areaMin.isSome || f.areaMax.isSome || f.ceilingMin.isSome || f.ceilingMax.isSome ||
  f.capacityMin.isSome || f.capacityMax.isSome || f.hasDivisions.isSome

/-- The value of `matchedRooms` after the numeric/flag stage of
`filterHotels`: `hotel.rooms`, filtered only when some room filter is set. -/
def survivingRooms (f : FilterState) (h : Hotel) : List Room :=
  if anyRoomFilterActive f then h.rooms.filter (roomPassesFilters f) else h.rooms

/-- The value of `matchedRooms` after the keyword-narrowing stage of
`filterHotels`: untouched when no terms exist or the hotel text matched
directly, else narrowed to rooms matching every term. -/
def matchedRoomsFor (f : FilterState) (terms : List Str) (h : Hotel) : List Room :=
  if !terms.isEmpty then
    if hotelDirectMatch h terms then survivingRooms f h
    else (survivingRooms f h).filter (fun r => roomMatchesText r terms)
  else survivingRooms f h

/-- The per-hotel body of the loop in `filterHotels`: `none` exactly when
a `continue` fires or the surviving room list is empty. -/
def processHotel (f : FilterState) (terms : List Str) (h : Hotel) : Option FilteredResult :=
  if !f.regions.isEmpty && !(f.regions.contains h.region) then none
  else if f.hasUsageRecords == some true &&
      (match h.usageCount with | none => true | some n => n == 0) then none
  else if !terms.isEmpty && !hotelMatchesText h terms then none
  else if (matchedRoomsFor f terms h).isEmpty then none
  else some ⟨h, matchedRoomsFor f terms h⟩

/-- `filterHotels` from `search.ts`. -/
def filterHotels (hotels : List Hotel) (f : FilterState) : List FilteredResult :=
  hotels.filterMap (processHotel f (tokenize f.keyword))

/-- C1: keyword matching uses AND semantics over tokenized terms against a
concatenated searchable text: a room matches iff every term is a substring
of the normalized join of the room's name, floor, equipment and features
(hotel text excluded); a hotel matches at hotel level iff every term is a
substring of the normalized join of its name, address and nearest-station
note, or at least one of its rooms matches all terms. -/
theorem keyword_and_semantics (room : Room) (hotel : Hotel) (terms : List Str) :
    (roomMatchesText room terms = true ↔
      ∀ t ∈ terms, t <:+: normalize (joinSpace (filterTruthy
        [some room.name, room.floor, room.equipment, room.features]))) ∧
    (hotelMatchesText hotel terms = true ↔
      ((∀ t ∈ terms, t <:+: normalize (joinSpace (filterTruthy
          [some hotel.name, some hotel.address,
            hotel.practicalInfo.bind PracticalInfo.nearestStation]))) ∨
        ∃ r ∈ hotel.rooms, roomMatchesText r terms = true)) := by
  refine ⟨?_, ?_⟩
  · simp [roomMatchesText, roomSearchText, includes, List.all_eq_true]
  · rw [hotelMatchesText]
    by_cases hd : hotelDirectMatch hotel terms = true
    · rw [if_pos hd]
      have hall : ∀ t ∈ terms, t <:+: normalize (joinSpace (filterTruthy
          [some hotel.name, some hotel.address,
            hotel.practicalInfo.bind PracticalInfo.nearestStation])) := by
        simpa [hotelDirectMatch, hotelSearchText, includes, List.all_eq_true] using hd
      exact iff_of_true rfl (Or.inl hall)
    · rw [if_neg hd]
      constructor
      · intro hany
        exact Or.inr (by simpa [List.any_eq_true] using hany)
      · rintro (hall | hex)
        · exact absurd (by simpa [hotelDirectMatch, hotelSearchText, includes,
            List.all_eq_true] using hall) hd
        · simpa [List.any_eq_true] using hex

/-- C3: for every room and selected capacity dimension the resolved
capacity is the dimension's field when present, else the generic max when
present, else zero; when a capacity bound is set, a resolved capacity of
zero fails the room unconditionally, and otherwise the capacity stage
passes iff the resolved capacity lies within the inclusive set bounds. -/
theorem capacity_resolution (f : FilterState) (room : Room) (t : CapacityType) :
    (getMaxCapacity room t =
      (match capacityField room.capacity t with
        | some v => v
        | none => (match room.capacity.max with | some m => m | none => 0))) ∧
    (capacityFails f room = true → roomPassesFilters f room = false) ∧
    ((f.capacityMin.isSome ∨ f.capacityMax.isSome) →
      (capacityFails f room = false ↔
        (getMaxCapacity room f.capacityType ≠ 0 ∧
          (∀ m, f.capacityMin = some m → m ≤ getMaxCapacity room f.capacityType) ∧
          (∀ m, f.capacityMax = some m → getMaxCapacity room f.capacityType ≤ m)))) := by
  refine ⟨?_, ?_, ?_⟩
  · cases h1 : capacityField room.capacity t <;>
      cases h2 : room.capacity.max <;>
        simp [getMaxCapacity, getCapacityValue, h1, h2]
  · intro hc
    simp [roomPassesFilters, hc]
  · intro hs
    have hg : (f.capacityMin.isSome || f.capacityMax.isSome) = true := by
      rcases hs with h | h <;> simp [h]
    rw [capacityFails, if_pos hg]
    cases hmin : f.capacityMin <;> cases hmax : f.capacityMax <;>
      simp_all [not_lt, and_assoc]

/-- C4: a room whose `areaSqm` is undefined is excluded whenever an area
bound is set, regardless of its other fields; the same rule ties
`ceilingHeightM` to the ceiling bounds; and all range bounds are
inclusive. -/
theorem range_exclusivity_on_missing (f : FilterState) (room : Room) :
    ((room.areaSqm = none ∧ (f.areaMin.isSome ∨ f.areaMax.isSome)) →
      roomPassesFilters f room = false) ∧
    ((room.ceilingHeightM = none ∧ (f.ceilingMin.isSome ∨ f.ceilingMax.isSome)) →
      roomPassesFilters f room = false) ∧
    (∀ m v : ℚ, (belowMin (some m) (some v) = false ↔ m ≤ v) ∧
      (aboveMax (some m) (some v) = false ↔ v ≤ m)) := by
  refine ⟨?_, ?_, ?_⟩
  · rintro ⟨ha, hb | hb⟩ <;>
      obtain ⟨m, hm⟩ := Option.isSome_iff_exists.mp hb <;>
        simp [roomPassesFilters, belowMin, aboveMax, ha, hm]
  · rintro ⟨ha, hb | hb⟩ <;>
      obtain ⟨m, hm⟩ := Option.isSome_iff_exists.mp hb <;>
        simp [roomPassesFilters, belowMin, aboveMax, ha, hm]
  · intro m v
    constructor <;> simp [belowMin, aboveMax, not_lt]

/-- C8: when the usage flag is `true` a hotel whose usage count is absent
or zero is excluded; a flag of `false` or unset imposes no constraint (the
whole filter behaves as if the flag were unset). -/
theorem usage_flag_asymmetry (f : FilterState) (terms : List Str) (h : Hotel) :
    ((f.hasUsageRecords = some true ∧ (h.usageCount = none ∨ h.usageCount = some 0)) →
      processHotel f terms h = none) ∧
    (∀ v : Option Bool, v ≠ some true →
      processHotel { f with hasUsageRecords := v } terms h =
        processHotel { f with hasUsageRecords := none } terms h) := by
  refine ⟨?_, ?_⟩
  · rintro ⟨hu, hc | hc⟩ <;> simp [processHotel, hu, hc]
  · intro v hv
    have hb : (v == some true) = false := beq_eq_false_iff_ne.mpr hv
    have hm : matchedRoomsFor { f with hasUsageRecords := v } terms h =
        matchedRoomsFor { f with hasUsageRecords := none } terms h := rfl
    simp [processHotel, hb, hm]

/-- A normalized character is outside every full-width range the
half-width fold touches. -/
lemma toHalfWidthChar_normalizeChar (c : Nat) :
    toHalfWidthChar (normalizeChar c) = normalizeChar c := by
  unfold normalizeChar toLowerChar katakanaToHiraganaChar toHalfWidthChar
  split_ifs <;> omega

/-- A normalized character is outside the katakana range. -/
lemma katakanaToHiraganaChar_normalizeChar (c : Nat) :
    katakanaToHiraganaChar (normalizeChar c) = normalizeChar c := by
  unfold normalizeChar toLowerChar katakanaToHiraganaChar toHalfWidthChar
  split_ifs <;> omega

/-- A normalized character carries no upper-case letter the case fold
would change. -/
lemma toLowerChar_normalizeChar (c : Nat) :
    toLowerChar (normalizeChar c) = normalizeChar c := by
  unfold normalizeChar toLowerChar katakanaToHiraganaChar toHalfWidthChar
  split_ifs <;> omega

/-- Each stage of `normalize` maps a character out of every range a later
application could change again, so the composed per-character action is
idempotent. -/
lemma normalizeChar_idem (c : Nat) : normalizeChar (normalizeChar c) = normalizeChar c := by
  show toLowerChar (katakanaToHiraganaChar (toHalfWidthChar (normalizeChar c))) = normalizeChar c
  rw [toHalfWidthChar_normalizeChar, katakanaToHiraganaChar_normalizeChar,
    toLowerChar_normalizeChar]

/-- String-level normalization acts pointwise as `normalizeChar`. -/
lemma normalize_eq_map (s : Str) : normalize s = s.map normalizeChar := by
  simp [normalize, toLowerCase, katakanaToHiragana, toHalfWidth, normalizeChar,
    List.map_map, Function.comp]

/-- C9: the text normalizer is idempotent — normalizing already-normalized
text never changes it. -/
theorem normalize_idempotent (s : Str) : normalize (normalize s) = normalize s := by
  simp only [normalize_eq_map, List.map_map]
  exact List.map_congr_left (fun c _ => by
    simp only [Function.comp_apply, normalizeChar_idem])

/-- C5: filtering with the all-default state keeps exactly the hotels with
at least one room, in order, each with its full room list. -/
theorem default_filter_noop (hotels : List Hotel) :
    filterHotels hotels defaultFilter =
      (hotels.filter (fun h => !h.rooms.isEmpty)).map (fun h => ⟨h, h.rooms⟩) := by
  have hterms : tokenize defaultFilter.keyword = [] := rfl
  rw [filterHotels, hterms]
  induction hotels with
  | nil => rfl
  | cons h hs ih =>
    have hph : processHotel defaultFilter [] h =
        if h.rooms.isEmpty then none else some ⟨h, h.rooms⟩ := rfl
    rw [List.filterMap_cons, List.filter_cons]
    cases hre : h.rooms.isEmpty <;>
      simp [hph, hre, ih]

/-- C2: with keyword terms present, a hotel that reached the room stage
keeps all numerically surviving rooms when its own text matched every term
directly, and otherwise keeps only the surviving rooms that individually
match every term. -/
theorem keyword_room_narrowing (f : FilterState) (terms : List Str) (h : Hotel)
    (res : FilteredResult) (hne : terms ≠ [])
    (hres : processHotel f terms h = some res) :
    (hotelDirectMatch h terms = true → res.matchedRooms = survivingRooms f h) ∧
    (hotelDirectMatch h terms = false →
      res.matchedRooms = (survivingRooms f h).filter (fun r => roomMatchesText r terms)) := by
  have hmr : res.matchedRooms = matchedRoomsFor f terms h := by
    rw [processHotel] at hres
    split_ifs at hres
    obtain rfl := Option.some.inj hres
    rfl
  have htne : terms.isEmpty = false := by
    cases terms with
    | nil => exact absurd rfl hne
    | cons a as => rfl
  constructor <;> intro hd <;>
    simp [hmr, matchedRoomsFor, htne, hd]

/-- Concrete inputs for the narrowing witness: a hotel whose text lacks
the term while the first of its two rooms carries it. -/
def roomA : Room :=
  { id := [0x72], name := [0x61], floor := none, areaSqm := none, ceilingHeightM := none
    capacity := ⟨none, none, none, none, none⟩, divisions := [], equipment := none
    features := none, loadingDock := none, usageCount := none, typicalSeatCount := none
    typicalUse := none }

/-- A second room whose name avoids the term. -/
def roomB : Room := { roomA with id := [0x73], name := [0x62] }

/-- The two-room hotel used by the narrowing witness. -/
def hotelA : Hotel :=
  { id := [0x68], name := [0x68], address := [], region := .tokyo, totalRoomCount := none
    rooms := [roomA, roomB], practicalInfo := none, lat := none, lng := none
    usageCount := none }

/-- Witness for C2 at a concrete input: the hotel passes only via its
first room, and the result keeps exactly that room. -/
theorem keyword_room_narrowing_witness :
    (hotelDirectMatch hotelA [[0x61]] = true →
      (FilteredResult.mk hotelA [roomA]).matchedRooms = survivingRooms defaultFilter hotelA) ∧
    (hotelDirectMatch hotelA [[0x61]] = false →
      (FilteredResult.mk hotelA [roomA]).matchedRooms =
        (survivingRooms defaultFilter hotelA).filter (fun r => roomMatchesText r [[0x61]])) :=
  keyword_room_narrowing defaultFilter [[0x61]] hotelA ⟨hotelA, [roomA]⟩
    (by decide) (by decide)

/-- The half-width katakana spelling ｶﾗｵｹ (U+FF76 U+FF97 U+FF75 U+FF79). -/
def halfKatakanaKaraoke : Str := [0xFF76, 0xFF97, 0xFF75, 0xFF79]

/-- The hiragana spelling からおけ (U+304B U+3089 U+304A U+3051). -/
def hiraganaKaraoke : Str := [0x304B, 0x3089, 0x304A, 0x3051]

/-- A room whose features note stores the hiragana spelling. -/
def roomKaraoke : Room := { roomA with features := some hiraganaKaraoke }

/-- A hotel owning only that room. -/
def hotelKaraoke : Hotel := { hotelA with rooms := [roomKaraoke] }

/-- C6 counterexample: the half-width katakana keyword ｶﾗｵｹ survives
normalization unchanged, fails to match a room whose stored text is the
hiragana equivalent からおけ, and the whole filter drops the hotel. -/
theorem script_folding_counterexample :
    tokenize halfKatakanaKaraoke = [halfKatakanaKaraoke] ∧
    roomMatchesText roomKaraoke (tokenize halfKatakanaKaraoke) = false ∧
    filterHotels [hotelKaraoke] { defaultFilter with keyword := halfKatakanaKaraoke } = [] := by
  decide

/-- ASCII Latin letters and digits to their full-width forms. -/
def toFullWidthChar (c : Nat) : Nat :=
  if (0x41 ≤ c ∧ c ≤ 0x5A) ∨ (0x61 ≤ c ∧ c ≤ 0x7A) ∨ (0x30 ≤ c ∧ c ≤ 0x39)
  then c + 0xFEE0 else c

/-- Hiragana to the corresponding full-width katakana. -/
def hiraganaToKatakanaChar (c : Nat) : Nat :=
  if 0x3041 ≤ c ∧ c ≤ 0x3096 then c + 0x60 else c

/-- Lower-case ASCII letters to upper case. -/
def toUpperChar (c : Nat) : Nat :=
  if 0x61 ≤ c ∧ c ≤ 0x7A then c - 0x20 else c

/-- Widening a character to full width does not change its normal form. -/
lemma normalizeChar_toFullWidthChar (c : Nat) :
    normalizeChar (toFullWidthChar c) = normalizeChar c := by
  unfold normalizeChar toLowerChar katakanaToHiraganaChar toHalfWidthChar toFullWidthChar
  split_ifs <;> omega

/-- Rewriting hiragana as katakana does not change its normal form. -/
lemma normalizeChar_hiraganaToKatakanaChar (c : Nat) :
    normalizeChar (hiraganaToKatakanaChar c) = normalizeChar c := by
  unfold normalizeChar toLowerChar katakanaToHiraganaChar toHalfWidthChar hiraganaToKatakanaChar
  split_ifs <;> omega

/-- Upper-casing an ASCII letter does not change its normal form. -/
lemma normalizeChar_toUpperChar (c : Nat) :
    normalizeChar (toUpperChar c) = normalizeChar c := by
  unfold normalizeChar toLowerChar katakanaToHiraganaChar toHalfWidthChar toUpperChar
  split_ifs <;> omega

/-- C6 amended: normalization is invariant under the variants the code
folds — full-width vs ASCII Latin letters and digits, full-width katakana
vs hiragana, and ASCII letter case — of either the query or the stored
text; half-width katakana such as ｶﾗｵｹ is not among them (see the
counterexample). -/
theorem script_folding_amended (s : Str) :
    normalize (s.map toFullWidthChar) = normalize s ∧
    normalize (s.map hiraganaToKatakanaChar) = normalize s ∧
    normalize (s.map toUpperChar) = normalize s := by
  refine ⟨?_, ?_, ?_⟩ <;>
    simp only [normalize_eq_map, List.map_map] <;>
      exact List.map_congr_left (fun c _ => by
        simp only [Function.comp_apply, normalizeChar_toFullWidthChar,
          normalizeChar_hiraganaToKatakanaChar, normalizeChar_toUpperChar])

/-- A hotel in 大阪 with one room, for the region counterexample. -/
def hotelOsaka : Hotel := { hotelA with region := .osaka }

/-- C7 counterexample: with no region selected the hotel is returned, and
adding the first region 東京 to the empty set shrinks the result to
nothing. -/
theorem region_monotonicity_counterexample :
    (filterHotels [hotelOsaka] defaultFilter).length = 1 ∧
    filterHotels [hotelOsaka] { defaultFilter with regions := [Region.tokyo] } = [] := by
  decide

/-- Spec-worded comparison point for "no region filter": the per-hotel
body of `filterHotels` with the region gate removed. -/
def processHotelNoRegion (f : FilterState) (terms : List Str) (h : Hotel) :
    Option FilteredResult :=
  if f.hasUsageRecords == some true &&
      (match h.usageCount with | none => true | some n => n == 0) then none
  else if !terms.isEmpty && !hotelMatchesText h terms then none
  else if (matchedRoomsFor f terms h).isEmpty then none
  else some ⟨h, matchedRoomsFor f terms h⟩

/-- Spec-worded comparison point: `filterHotels` with no region filter at
all. -/
def filterHotelsNoRegion (hotels : List Hotel) (f : FilterState) : List FilteredResult :=
  hotels.filterMap (processHotelNoRegion f (tokenize f.keyword))

/-- C7 amended: adding a region to an already non-empty region set never
drops a result, and the empty region set behaves exactly as if the region
filter did not exist; adding the first region to the empty set can shrink
the result (see the counterexample). -/
theorem region_monotonicity_amended (hotels : List Hotel) (f : FilterState) (r : Region) :
    (f.regions ≠ [] → ∀ res ∈ filterHotels hotels f,
      res ∈ filterHotels hotels { f with regions := r :: f.regions }) ∧
    (f.regions = [] → filterHotels hotels f = filterHotelsNoRegion hotels f) := by
  constructor
  · intro hne res hres
    rw [filterHotels] at hres
    obtain ⟨h, hh, hph⟩ := List.mem_filterMap.mp hres
    refine List.mem_filterMap.mpr ⟨h, hh, ?_⟩
    by_cases hg : (!f.regions.isEmpty && !(f.regions.contains h.region)) = true
    · rw [processHotel, if_pos hg] at hph
      exact Option.noConfusion hph
    · have hF : f.regions.isEmpty = false := by
        cases hreg : f.regions with
        | nil => exact absurd hreg hne
        | cons a as => rfl
      have hmem : h.region ∈ f.regions := by
        by_contra hnm
        exact hg (by simp [hF, hnm])
      have hgate : (!((r :: f.regions).isEmpty) && !((r :: f.regions).contains h.region)) = false := by
        simp [List.mem_cons, hmem]
      rw [processHotel] at hph
      rw [if_neg hg] at hph
      rw [processHotel, if_neg (by rw [hgate]; exact Bool.false_ne_true)]
      exact hph
  · intro hreg
    have hbody : processHotel f (tokenize f.keyword) =
        processHotelNoRegion f (tokenize f.keyword) := by
      funext h
      rw [processHotel, processHotelNoRegion, hreg]
      rfl
    rw [filterHotels, filterHotelsNoRegion, hbody]

/-- A prefix of `a ++ c :: b` avoiding `c` is already a prefix of `a`. -/
lemma prefix_of_prefix_append_cons {c : Nat} {t a b : Str}
    (hc : c ∉ t) (h : t <+: a ++ c :: b) : t <+: a := by
  induction a generalizing t with
  | nil =>
    cases t with
    | nil => exact List.nil_prefix
    | cons x xs =>
      rw [List.nil_append, List.cons_prefix_cons] at h
      exact absurd (h.1 ▸ List.mem_cons_self x xs) hc
  | cons y ys ih =>
    cases t with
    | nil => exact List.nil_prefix
    | cons x xs =>
      rw [List.cons_append, List.cons_prefix_cons] at h
      rw [List.cons_prefix_cons]
      exact ⟨h.1, ih (fun hm => hc (List.mem_cons_of_mem x hm)) h.2⟩

/-- A contiguous occurrence avoiding the separator `c` cannot straddle it:
it lies wholly to its left or wholly to its right. -/
lemma infix_append_cons_of_not_mem {c : Nat} {t a b : Str}
    (hc : c ∉ t) (h : t <:+: a ++ c :: b) : t <:+: a ∨ t <:+: b := by
  induction a generalizing t with
  | nil =>
    rw [List.nil_append] at h
    rcases List.infix_cons_iff.mp h with hp | hi
    · cases t with
      | nil => exact Or.inr List.nil_infix
      | cons x xs =>
        rw [List.cons_prefix_cons] at hp
        exact absurd (hp.1 ▸ List.mem_cons_self x xs) hc
    · exact Or.inr hi
  | cons y ys ih =>
    rw [List.cons_append] at h
    rcases List.infix_cons_iff.mp h with hp | hi
    · exact Or.inl (prefix_of_prefix_append_cons hc
        (by simpa using hp) : t <+: y :: ys).isInfix
    · rcases ih hc hi with h1 | h2
      · exact Or.inl (h1.trans (List.suffix_cons y ys).isInfix)
      · exact Or.inr h2

/-- A member field's content occurs contiguously in the space-join. -/
lemma infix_joinSpace_of_mem {t f : Str} {l : List Str}
    (hf : f ∈ l) (h : t <:+: f) : t <:+: joinSpace l := by
  induction l with
  | nil => exact absurd hf (List.not_mem_nil f)
  | cons g gs ih =>
    rcases List.mem_cons.mp hf with rfl | hmem
    · cases gs with
      | nil => exact h
      | cons g2 gs2 =>
        exact h.trans (show f <:+: f ++ 0x20 :: joinSpace (g2 :: gs2) from
          (List.prefix_append f _).isInfix)
    · cases gs with
      | nil => exact absurd hmem (List.not_mem_nil f)
      | cons g2 gs2 =>
        exact (ih hmem).trans (show joinSpace (g2 :: gs2) <:+: _ from
          ((List.suffix_cons 0x20 (joinSpace (g2 :: gs2))).trans
            (List.suffix_append g _)).isInfix)

/-- A contiguous occurrence of a nonempty, space-free needle in the
space-join comes from some single field. -/
lemma infix_joinSpace_exists {t : Str} (hne : t ≠ []) (hsp : 0x20 ∉ t) :
    ∀ l : List Str, t <:+: joinSpace l → ∃ f ∈ l, t <:+: f := by
  intro l
  induction l with
  | nil =>
    intro h
    exact absurd (List.infix_nil.mp h) hne
  | cons g gs ih =>
    intro h
    cases gs with
    | nil => exact ⟨g, List.mem_cons_self g [], h⟩
    | cons g2 gs2 =>
      rcases infix_append_cons_of_not_mem hsp (show t <:+: g ++ 0x20 :: joinSpace (g2 :: gs2) from h)
        with h1 | h2
      · exact ⟨g, List.mem_cons_self g _, h1⟩
      · obtain ⟨f, hf, hinf⟩ := ih h2
        exact ⟨f, List.mem_cons_of_mem g hf, hinf⟩

/-- For a nonempty, space-free needle, occurrence in the space-join is
occurrence in one of the fields. -/
lemma infix_joinSpace_iff {t : Str} {l : List Str} (hne : t ≠ []) (hsp : 0x20 ∉ t) :
    t <:+: joinSpace l ↔ ∃ f ∈ l, t <:+: f :=
  ⟨infix_joinSpace_exists hne hsp l, fun ⟨_, hf, hinf⟩ => infix_joinSpace_of_mem hf hinf⟩

/-- Normalization fixes the space character. -/
lemma normalizeChar_space : normalizeChar 0x20 = 0x20 := rfl

/-- Normalizing a space-join normalizes the fields and keeps the single
separating spaces. -/
lemma normalize_joinSpace (l : List Str) :
    normalize (joinSpace l) = joinSpace (l.map normalize) := by
  induction l with
  | nil => rfl
  | cons g gs ih =>
    cases gs with
    | nil => rfl
    | cons g2 gs2 =>
      show normalize (g ++ 0x20 :: joinSpace (g2 :: gs2)) =
        normalize g ++ 0x20 :: joinSpace ((g2 :: gs2).map normalize)
      rw [← ih]
      simp [normalize_eq_map, List.map_append, normalizeChar_space]

/-- Every piece of the whitespace split is free of whitespace characters. -/
lemma splitOnWhitespace_no_ws :
    ∀ s : Str, ∀ tok ∈ splitOnWhitespace s, ∀ c ∈ tok, isWhitespaceChar c = false := by
  intro s
  induction s with
  | nil =>
    intro tok htok c hc
    rw [splitOnWhitespace, List.mem_singleton] at htok
    subst htok
    exact absurd hc (List.not_mem_nil c)
  | cons d rest ih =>
    intro tok htok c hc
    by_cases hw : isWhitespaceChar d = true
    · rw [splitOnWhitespace, if_pos hw] at htok
      rcases List.mem_cons.mp htok with rfl | hmem
      · exact absurd hc (List.not_mem_nil c)
      · exact ih tok hmem c hc
    · rw [splitOnWhitespace, if_neg hw] at htok
      rw [Bool.not_eq_true] at hw
      cases hsp : splitOnWhitespace rest with
      | nil =>
        rw [hsp, List.mem_singleton] at htok
        subst htok
        rcases List.mem_cons.mp hc with rfl | hc2
        · exact hw
        · exact absurd hc2 (List.not_mem_nil c)
      | cons p ps =>
        rw [hsp] at htok
        rcases List.mem_cons.mp htok with rfl | hmem
        · rcases List.mem_cons.mp hc with rfl | hc2
          · exact hw
          · exact ih p (hsp ▸ List.mem_cons_self p ps) c hc2
        · exact ih tok (hsp ▸ List.mem_cons_of_mem p hmem) c hc

/-- Normalization never turns a non-whitespace character into whitespace. -/
lemma normalizeChar_not_ws {c : Nat} (h : isWhitespaceChar c = false) :
    isWhitespaceChar (normalizeChar c) = false := by
  simp only [isWhitespaceChar, decide_eq_false_iff_not] at h ⊢
  unfold normalizeChar toLowerChar katakanaToHiraganaChar toHalfWidthChar
  split_ifs <;> omega

/-- Every keyword term is nonempty and whitespace-free. -/
lemma tokenize_mem {s t : Str} (ht : t ∈ tokenize s) :
    t ≠ [] ∧ ∀ c ∈ t, isWhitespaceChar c = false := by
  obtain ⟨u, hu, rfl⟩ := List.mem_map.mp ht
  have hmem := (List.mem_filter.mp hu).1
  have hne : u.isEmpty = false := by simpa using (List.mem_filter.mp hu).2
  constructor
  · cases u with
    | nil => exact absurd hne (by simp)
    | cons c cs => simp [normalize_eq_map]
  · intro c hc
    obtain ⟨c', hc', rfl⟩ := List.mem_map.mp (by
      simpa [normalize_eq_map] using hc)
    exact normalizeChar_not_ws (splitOnWhitespace_no_ws s u hmem c' hc')

/-- C10: every keyword term produced by tokenization is whitespace-free,
and since the searchable text joins the present fields with single spaces,
such a term occurs in a room's (or hotel's) normalized searchable text iff
it occurs in the normalized content of one individual present field — it
can never match by spanning a field boundary. -/
theorem field_local_matching (s t : Str) (room : Room) (hotel : Hotel)
    (ht : t ∈ tokenize s) :
    (∀ c ∈ t, isWhitespaceChar c = false) ∧
    (includes (roomSearchText room) t = true ↔
      ∃ f ∈ filterTruthy [some room.name, room.floor, room.equipment, room.features],
        t <:+: normalize f) ∧
    (includes (hotelSearchText hotel) t = true ↔
      ∃ f ∈ filterTruthy [some hotel.name, some hotel.address,
          hotel.practicalInfo.bind PracticalInfo.nearestStation],
        t <:+: normalize f) := by
  obtain ⟨hne, hws⟩ := tokenize_mem ht
  have hsp : 0x20 ∉ t := fun hmem => absurd (hws 0x20 hmem) (by decide)
  refine ⟨hws, ?_, ?_⟩
  · simp [includes, roomSearchText, normalize_joinSpace,
      infix_joinSpace_iff hne hsp, List.mem_map]
  · simp [includes, hotelSearchText, normalize_joinSpace,
      infix_joinSpace_iff hne hsp, List.mem_map]

/-- Witness for C10 at a concrete input: the term is the first token of
the two-token keyword, and the room/hotel are the concrete ones above. -/
theorem field_local_matching_witness :
    (∀ c ∈ [0x61], isWhitespaceChar c = false) ∧
    (includes (roomSearchText roomA) [0x61] = true ↔
      ∃ f ∈ filterTruthy [some roomA.name, roomA.floor, roomA.equipment, roomA.features],
        [0x61] <:+: normalize f) ∧
    (includes (hotelSearchText hotelA) [0x61] = true ↔
      ∃ f ∈ filterTruthy [some hotelA.name, some hotelA.address,
          hotelA.practicalInfo.bind PracticalInfo.nearestStation],
        [0x61] <:+: normalize f) :=
  field_local_matching [0x61, 0x20, 0x62] [0x61] roomA hotelA (by decide)

end VenueSearch
